import Mathlib

/-!
Verification of the Konsole scrollback-history subsystem (`src/src/History.h`).

The repository sources provide the class declarations and inline member
bodies of `History.h`; the out-of-line member bodies (History.cpp) are not
among the sources, so those operations are modelled from the specification
(each such definition carries a doc comment starting `Modelled from the
spec:`).  Machine integers are modelled as `Nat`; cell colors and character
codes are opaque `Nat` values, as the spec treats them as opaque
externally-defined data.
-/

namespace Konsole

/-- Modelled from the spec: the "extended char" bit of the rendition flags
(`RE_EXTENDED_CHAR`, declared in Character.h which is not among the
sources). -/
def RE_EXTENDED_CHAR : Nat := 64

/-- `r & ~RE_EXTENDED_CHAR`: the rendition flags with the extended-char bit
masked out. -/
def clearExtendedChar (r : Nat) : Nat :=
  if r.testBit 6 then r - RE_EXTENDED_CHAR else r

/-- A terminal cell (`Character`, declared in Character.h which is not among
the sources).  Modelled from the spec: character code, foreground color,
background color, rendition bit flags, "is real character" flag; colors and
codes are opaque values. -/
structure Character where
  character : Nat
  foregroundColor : Nat
  backgroundColor : Nat
  rendition : Nat
  isRealCharacter : Bool
deriving DecidableEq, Repr

/-- A row of cells (`typedef QVector<Character> TextLine`). -/
def TextLine := List Character

/-- One format run of a compacted row (`class CharacterFormat`,
History.h lines 96-123). -/
structure CharacterFormat where
  fgColor : Nat
  bgColor : Nat
  startPos : Nat
  rendition : Nat
  isRealCharacter : Bool
deriving DecidableEq, Repr

/-- `CharacterFormat::equalsFormat(const CharacterFormat &other)`
(History.h lines 99-103): compares rendition (extended-char bit masked
out), foreground and background color. -/
def CharacterFormat.equalsFormatFmt (f other : CharacterFormat) : Bool :=
  (clearExtendedChar other.rendition == clearExtendedChar f.rendition)
    && (other.fgColor == f.fgColor) && (other.bgColor == f.bgColor)

/-- `CharacterFormat::equalsFormat(const Character &c)`
(History.h lines 105-109): compares the cell's rendition (extended-char
bit masked out), foreground and background color against the run. -/
def CharacterFormat.equalsFormatChar (f : CharacterFormat) (c : Character) : Bool :=
  (clearExtendedChar c.rendition == clearExtendedChar f.rendition)
    && (c.foregroundColor == f.fgColor) && (c.backgroundColor == f.bgColor)

/-- `CharacterFormat::setFormat(const Character &c)` (History.h lines
111-117): copies rendition, colors and the is-real-character flag from the
cell; `startPos` is untouched. -/
def CharacterFormat.setFormat (f : CharacterFormat) (c : Character) : CharacterFormat :=
  { f with rendition := c.rendition, fgColor := c.foregroundColor,
           bgColor := c.backgroundColor, isRealCharacter := c.isRealCharacter }

/-- A zero-initialized `CharacterFormat` value. -/
def blankFormat : CharacterFormat :=
  { fgColor := 0, bgColor := 0, startPos := 0, rendition := 0, isRealCharacter := false }

/-- The format run opened by cell `c` at column `pos`: `setFormat(c)`
followed by the assignment of `startPos` (spec 4.2: a run records the
format of the cell that starts it). -/
def mkFormat (c : Character) (pos : Nat) : CharacterFormat :=
  { blankFormat.setFormat c with startPos := pos }

/-- Do two cells carry the same format, in the sense of
`CharacterFormat::equalsFormat` (colors and rendition with the
extended-char bit masked out)? -/
def sameFormat (a b : Character) : Bool :=
  (clearExtendedChar b.rendition == clearExtendedChar a.rendition)
    && (b.foregroundColor == a.foregroundColor)
    && (b.backgroundColor == a.backgroundColor)

/-- Modelled from the spec: the left-to-right scan of
`CompactHistoryLine`'s constructor (History.cpp is not among the sources),
past the first cell.  `f` is the format run currently open; a cell that
`equalsFormat`-matches it joins the run, any other cell opens a new run
recording that cell's format (spec 4.2). -/
def formatRunsAux (f : CharacterFormat) (pos : Nat) : List Character → List CharacterFormat
  | [] => []
  | c :: cs =>
    if f.equalsFormatChar c then formatRunsAux f (pos + 1) cs
    else mkFormat c pos :: formatRunsAux (mkFormat c pos) (pos + 1) cs

/-- Modelled from the spec: the format-run table built for a row by
`CompactHistoryLine`'s constructor (History.cpp is not among the sources):
the first cell opens the first run at column 0, and a new run starts
whenever foreground color, background color, or rendition flags (excluding
the extended-char bit) change (spec 4.2). -/
def formatRuns : List Character → List CharacterFormat
  | [] => []
  | c :: cs => mkFormat c 0 :: formatRunsAux (mkFormat c 0) 1 cs

/-- One stored row (`class CompactHistoryLine`, History.h lines 196-233):
character codes plus a run-length-encoded format table.  The construction
of the fields from a `TextLine` is in `mkCompactHistoryLine`. -/
structure CompactHistoryLine where
  text : List Nat
  formatArray : List CharacterFormat
  wrapped : Bool
deriving DecidableEq, Repr

/-- Modelled from the spec: `CompactHistoryLine`'s constructor (History.cpp
is not among the sources): stores the rows' character codes and one format
run per distinct contiguous format segment (spec 4.2); the wrap flag is
initially false and is set by `addLine` via `setWrapped`. -/
def mkCompactHistoryLine (line : List Character) : CompactHistoryLine :=
  { text := line.map (·.character), formatArray := formatRuns line, wrapped := false }

/-- `CompactHistoryLine::getLength` (History.h lines 221-224). -/
def CompactHistoryLine.getLength (l : CompactHistoryLine) : Nat :=
  l.text.length

/-- `CompactHistoryLine::isWrapped` (History.h lines 211-214). -/
def CompactHistoryLine.isWrapped (l : CompactHistoryLine) : Bool :=
  l.wrapped

/-- `CompactHistoryLine::setWrapped` (History.h lines 216-219). -/
def CompactHistoryLine.setWrapped (l : CompactHistoryLine) (value : Bool) : CompactHistoryLine :=
  { l with wrapped := value }

/-- The linear search for the format run covering a column: starting from
run `cur`, advance to the next run while its start column is at or before
the requested index.  Part of the spec model of
`CompactHistoryLine::getCharacter` (spec 4.2: locate which format run
covers the index). -/
def findRunAux (cur : CharacterFormat) : List CharacterFormat → Nat → CharacterFormat
  | [], _ => cur
  | g :: gs, i => if g.startPos ≤ i then findRunAux g gs i else cur

/-- Modelled from the spec: `CompactHistoryLine::getCharacter(index, r)`
(History.cpp is not among the sources): reconstructs one full cell by
locating the format run covering `index` and combining it with the stored
character code, materializing the is-real-character bit from the run
(spec 4.2). -/
def CompactHistoryLine.getCharacter (l : CompactHistoryLine) (index : Nat) : Character :=
  match l.formatArray with
  | [] =>
    { character := 0, foregroundColor := 0, backgroundColor := 0,
      rendition := 0, isRealCharacter := false }
  | f :: fs =>
    let run := findRunAux f fs index
    { character := l.text.getD index 0, foregroundColor := run.fgColor,
      backgroundColor := run.bgColor, rendition := run.rendition,
      isRealCharacter := run.isRealCharacter }

/-- Modelled from the spec: `CompactHistoryLine::getCharacters(array, size,
startColumn)` (History.cpp is not among the sources): copies `size` cells
starting at `startColumn`, each reconstructed by `getCharacter`
(spec 4.2). -/
def CompactHistoryLine.getCharacters (l : CompactHistoryLine) (size startColumn : Nat) :
    List Character :=
  (List.range size).map (fun k => l.getCharacter (startColumn + k))

/-- The empty stored row, used as out-of-range default for lookups. -/
def emptyCompactLine : CompactHistoryLine :=
  mkCompactHistoryLine []

/-- The in-memory bounded scroll (`class CompactHistoryScroll`, History.h
lines 235-260): an ordered collection of compact rows (oldest first) and a
maximum line count.  Per spec 4.3 the cells of the row under construction
accumulate in a pending buffer until `addLine` finalizes them. -/
structure CompactHistoryScroll where
  lines : List CompactHistoryLine
  pending : List Character
  maxLineCount : Nat
deriving DecidableEq, Repr

/-- `CompactHistoryScroll`'s constructor: the header (History.h line 240)
declares the default retention bound `maxLineCount = 1000`. -/
def mkCompactHistoryScroll (maxLineCount : Nat := 1000) : CompactHistoryScroll :=
  { lines := [], pending := [], maxLineCount := maxLineCount }

/-- FIFO eviction: drop rows from the front until at most `bound` remain. -/
def evictFront (l : List CompactHistoryLine) (bound : Nat) : List CompactHistoryLine :=
  l.drop (l.length - bound)

/-- Modelled from the spec: `CompactHistoryScroll::addCellsVector`
(History.cpp is not among the sources): the row's cells accumulate into
the pending row buffer (spec 4.3). -/
def CompactHistoryScroll.addCellsVector (s : CompactHistoryScroll) (cells : List Character) :
    CompactHistoryScroll :=
  { s with pending := s.pending ++ cells }

/-- Modelled from the spec: `CompactHistoryScroll::addCells` (History.cpp
is not among the sources): appends the given cells to the line currently
being built (spec 6). -/
def CompactHistoryScroll.addCells (s : CompactHistoryScroll) (a : List Character) :
    CompactHistoryScroll :=
  s.addCellsVector a

/-- Modelled from the spec: `CompactHistoryScroll::addLine(previousWrapped)`
(History.cpp is not among the sources): finalizes the pending buffer into a
new compact row, appends it, records `previousWrapped` as that row's wrap
flag, and evicts the oldest rows while the bound is exceeded (spec 4.3). -/
def CompactHistoryScroll.addLine (s : CompactHistoryScroll) (previousWrapped : Bool) :
    CompactHistoryScroll :=
  let l := (mkCompactHistoryLine s.pending).setWrapped previousWrapped
  { s with lines := evictFront (s.lines ++ [l]) s.maxLineCount, pending := [] }

/-- Modelled from the spec: `CompactHistoryScroll::getLines` (History.cpp
is not among the sources): the number of stored rows (spec 4.3, 6). -/
def CompactHistoryScroll.getLines (s : CompactHistoryScroll) : Nat :=
  s.lines.length

/-- Modelled from the spec: `CompactHistoryScroll::getLineLen` (History.cpp
is not among the sources): the cell count of the stored row (spec 4.3, 6). -/
def CompactHistoryScroll.getLineLen (s : CompactHistoryScroll) (lineNumber : Nat) : Nat :=
  (s.lines.getD lineNumber emptyCompactLine).getLength

/-- Modelled from the spec: `CompactHistoryScroll::getCells` (History.cpp
is not among the sources): extracts `count` cells of the stored row
starting at `startColumn`, via the row's `getCharacters` (spec 4.3, 6). -/
def CompactHistoryScroll.getCells (s : CompactHistoryScroll)
    (lineNumber startColumn count : Nat) : List Character :=
  (s.lines.getD lineNumber emptyCompactLine).getCharacters count startColumn

/-- Modelled from the spec: `CompactHistoryScroll::isWrappedLine`
(History.cpp is not among the sources): the stored row's wrap flag, read
through `CompactHistoryLine::isWrapped` (spec 4.3, 6). -/
def CompactHistoryScroll.isWrappedLine (s : CompactHistoryScroll) (lineNumber : Nat) : Bool :=
  (s.lines.getD lineNumber emptyCompactLine).isWrapped

/-- Modelled from the spec: `CompactHistoryScroll::setMaxNbLines(n)`
(History.cpp is not among the sources): updates the bound and, if the
current count exceeds it, evicts rows from the front until compliant
(spec 4.3). -/
def CompactHistoryScroll.setMaxNbLines (s : CompactHistoryScroll) (lineCount : Nat) :
    CompactHistoryScroll :=
  { s with maxLineCount := lineCount, lines := evictFront s.lines lineCount }

/-- Append one finished row: the protocol `addCellsVector`+`addLine` of
spec 8. -/
def CompactHistoryScroll.appendRow (s : CompactHistoryScroll)
    (row : List Character) (wrapped : Bool) : CompactHistoryScroll :=
  (s.addCellsVector row).addLine wrapped

/-- Append a sequence of finished rows, oldest first, all with wrap flag
`w`. -/
def CompactHistoryScroll.appendRows (s : CompactHistoryScroll)
    (rows : List (List Character)) (w : Bool) : CompactHistoryScroll :=
  rows.foldl (fun acc r => acc.appendRow r w) s

/-- The disk-backed unbounded scroll (`class HistoryScrollFile`, History.h
lines 47-67): three append-only sequences — per-line closing offsets
(`_index`), the flat concatenation of all appended cells (`_cells`), and
one wrap flag per line (`_lineflags`).  Offsets are counted in cells
(the source stores byte offsets and divides by `sizeof(Character)`). -/
structure HistoryScrollFile where
  index : List Nat
  cells : List Character
  lineflags : List Bool
deriving DecidableEq, Repr

/-- `HistoryScrollFile`'s constructor: all three sequences start empty. -/
def mkHistoryScrollFile : HistoryScrollFile :=
  { index := [], cells := [], lineflags := [] }

/-- Modelled from the spec: `HistoryScrollFile::getLines` (History.cpp is
not among the sources): the number of closed lines, one index entry per
line (spec 4.4). -/
def HistoryScrollFile.getLines (s : HistoryScrollFile) : Nat :=
  s.index.length

/-- Modelled from the spec: `HistoryScrollFile::startOfLine(lineno)`
(History.cpp is not among the sources): the cell offset at which line
`lineno` begins — 0 for the first line, the closing offset of the previous
line for a closed or currently-open line, and the total cell count past the
end (spec 4.4). -/
def HistoryScrollFile.startOfLine (s : HistoryScrollFile) (lineno : Nat) : Nat :=
  if lineno = 0 then 0
  else if lineno ≤ s.getLines then s.index.getD (lineno - 1) 0
  else s.cells.length

/-- Modelled from the spec: `HistoryScrollFile::getLineLen(lineno)`
(History.cpp is not among the sources): the distance, in cells, from the
line's start offset to the next line's start offset (spec 4.4). -/
def HistoryScrollFile.getLineLen (s : HistoryScrollFile) (lineno : Nat) : Nat :=
  s.startOfLine (lineno + 1) - s.startOfLine lineno

/-- Modelled from the spec: `HistoryScrollFile::getCells` (History.cpp is
not among the sources): reads `count` cells of the cell sequence starting
at offset `index[lineno] + startColumn` (spec 4.4). -/
def HistoryScrollFile.getCells (s : HistoryScrollFile)
    (lineno startColumn count : Nat) : List Character :=
  ((s.cells.drop (s.startOfLine lineno + startColumn)).take count)

/-- Modelled from the spec: `HistoryScrollFile::isWrappedLine(lineno)`
(History.cpp is not among the sources): reads flags-sequence entry
`lineno` (spec 4.4). -/
def HistoryScrollFile.isWrappedLine (s : HistoryScrollFile) (lineno : Nat) : Bool :=
  s.lineflags.getD lineno false

/-- Modelled from the spec: `HistoryScrollFile::addCells` (History.cpp is
not among the sources): appends the cells to the cell sequence
(spec 4.4). -/
def HistoryScrollFile.addCells (s : HistoryScrollFile) (text : List Character) :
    HistoryScrollFile :=
  { s with cells := s.cells ++ text }

/-- Modelled from the spec: `HistoryScrollFile::addLine(previousWrapped)`
(History.cpp is not among the sources): appends the cell sequence's current
length to the index sequence, closing the just-finished line, and appends
the wrap flag to the flags sequence (spec 4.4). -/
def HistoryScrollFile.addLine (s : HistoryScrollFile) (previousWrapped : Bool) :
    HistoryScrollFile :=
  { s with index := s.index ++ [s.cells.length],
           lineflags := s.lineflags ++ [previousWrapped] }

/-- Append one finished row: the protocol `addCells`+`addLine` of spec 8. -/
def HistoryScrollFile.appendRow (s : HistoryScrollFile)
    (row : List Character) (wrapped : Bool) : HistoryScrollFile :=
  (s.addCells row).addLine wrapped

/-- Append a sequence of finished rows, oldest first, all with wrap flag
`w`. -/
def HistoryScrollFile.appendRows (s : HistoryScrollFile)
    (rows : List (List Character)) (w : Bool) : HistoryScrollFile :=
  rows.foldl (fun acc r => acc.appendRow r w) s

/-- The null scroll (`class HistoryScrollNone`, History.h lines 72-87):
history disabled, no state at all. -/
structure HistoryScrollNone : Type
deriving DecidableEq, Repr

/-- Modelled from the spec: `HistoryScrollNone::hasScroll` (History.cpp is
not among the sources): reports false (spec 4.5). -/
def HistoryScrollNone.hasScroll (_ : HistoryScrollNone) : Bool :=
  false

/-- Modelled from the spec: `HistoryScrollNone::getLines` (History.cpp is
not among the sources): always 0 (spec 4.5). -/
def HistoryScrollNone.getLines (_ : HistoryScrollNone) : Nat :=
  0

/-- Modelled from the spec: `HistoryScrollNone::addCells` (History.cpp is
not among the sources): a no-op (spec 4.5). -/
def HistoryScrollNone.addCells (s : HistoryScrollNone) (_ : List Character) :
    HistoryScrollNone :=
  s

/-- Modelled from the spec: `HistoryScrollNone::addLine` (History.cpp is
not among the sources): a no-op (spec 4.5). -/
def HistoryScrollNone.addLine (s : HistoryScrollNone) (_ : Bool) : HistoryScrollNone :=
  s

/-- One mutating call against the null scroll. -/
inductive NoneOp where
  | addCells (cells : List Character)
  | addLine (previousWrapped : Bool)

/-- Run one mutating call against the null scroll. -/
def runNoneOp (s : HistoryScrollNone) : NoneOp → HistoryScrollNone
  | .addCells cs => s.addCells cs
  | .addLine w => s.addLine w

/-- The closed set of scroll backends behind the abstract `HistoryScroll`
interface (spec 9: a closed polymorphic variant set with exactly these
implementers). -/
inductive HistoryScroll where
  | ofFile (s : HistoryScrollFile)
  | ofNone (s : HistoryScrollNone)
  | ofCompact (s : CompactHistoryScroll)
deriving DecidableEq, Repr

/-- `getLines` through the abstract scroll interface. -/
def HistoryScroll.getLines : HistoryScroll → Nat
  | .ofFile s => s.getLines
  | .ofNone s => s.getLines
  | .ofCompact s => s.getLines

/-- `getLineLen` through the abstract scroll interface. -/
def HistoryScroll.getLineLen : HistoryScroll → Nat → Nat
  | .ofFile s, i => s.getLineLen i
  | .ofNone _, _ => 0
  | .ofCompact s, i => s.getLineLen i

/-- `getCells i 0 (getLineLen i)` through the abstract scroll interface:
line `i` read back whole. -/
def HistoryScroll.getRow : HistoryScroll → Nat → List Character
  | .ofFile s, i => s.getCells i 0 (s.getLineLen i)
  | .ofNone _, _ => []
  | .ofCompact s, i => s.getCells i 0 (s.getLineLen i)

/-- `isWrappedLine` through the abstract scroll interface. -/
def HistoryScroll.isWrappedLine : HistoryScroll → Nat → Bool
  | .ofFile s, i => s.isWrappedLine i
  | .ofNone _, _ => false
  | .ofCompact s, i => s.isWrappedLine i

/-- `addCells` through the abstract scroll interface. -/
def HistoryScroll.addCells : HistoryScroll → List Character → HistoryScroll
  | .ofFile s, cs => .ofFile (s.addCells cs)
  | .ofNone s, cs => .ofNone (s.addCells cs)
  | .ofCompact s, cs => .ofCompact (s.addCells cs)

/-- `addLine` through the abstract scroll interface. -/
def HistoryScroll.addLine : HistoryScroll → Bool → HistoryScroll
  | .ofFile s, w => .ofFile (s.addLine w)
  | .ofNone s, w => .ofNone (s.addLine w)
  | .ofCompact s, w => .ofCompact (s.addLine w)

/-- Modelled from the spec: the rebuild step of the policy-conversion
algorithm (History.cpp is not among the sources): copy every existing line
of `src`, oldest first, across via `getCells`/`isWrappedLine` into
`addCells`/`addLine` on the new scroll `dst` (spec 4.6). -/
def copyScroll (src dst : HistoryScroll) : HistoryScroll :=
  (List.range src.getLines).foldl
    (fun d i => (d.addCells (src.getRow i)).addLine (src.isWrappedLine i)) dst

/-- The retention-policy family (`HistoryType` and its subclasses
`HistoryTypeNone`, `HistoryTypeFile`, `CompactHistoryType`, History.h
lines 266-330): disabled, unlimited disk-backed, or bounded in-memory
with `nbLines` (spec 4.6). -/
inductive HistoryType where
  | typeNone
  | typeFile
  | typeCompact (nbLines : Nat)
deriving DecidableEq, Repr

/-- `HistoryType::isEnabled` (spec 4.6: false only for the disabled
policy). -/
def HistoryType.isEnabled : HistoryType → Bool
  | .typeNone => false
  | .typeFile => true
  | .typeCompact _ => true

/-- `HistoryType::maximumLineCount`: -1 (unlimited) for the file policy,
0 for disabled, `nbLines` for the bounded policy. -/
def HistoryType.maximumLineCount : HistoryType → Int
  | .typeNone => 0
  | .typeFile => -1
  | .typeCompact n => (n : Int)

/-- `HistoryType::isUnlimited` (History.h lines 290-293). -/
def HistoryType.isUnlimited (t : HistoryType) : Bool :=
  t.maximumLineCount == -1

/-- Modelled from the spec: `HistoryType::scroll(existingScroll)` for each
policy subclass (History.cpp is not among the sources): if the existing
scroll is already the correct backend type, return it unchanged — for the
bounded policy updating the bound in place (which evicts if necessary, per
the `setMaxNbLines` contract of spec 4.3) — otherwise construct a new
scroll of the target backend and copy every existing line across, oldest
first (spec 4.6). -/
def HistoryType.scroll : HistoryType → HistoryScroll → HistoryScroll
  | .typeNone, s =>
    match s with
    | .ofNone n => .ofNone n
    | s => copyScroll s (.ofNone ⟨⟩)
  | .typeFile, s =>
    match s with
    | .ofFile f => .ofFile f
    | s => copyScroll s (.ofFile mkHistoryScrollFile)
  | .typeCompact n, s =>
    match s with
    | .ofCompact c => .ofCompact (c.setMaxNbLines n)
    | s => copyScroll s (.ofCompact (mkCompactHistoryScroll n))

/-- A default cell value, used only as the out-of-range default of `getD`
lookups in theorem statements. -/
def dummyCharacter : Character :=
  { character := 0, foregroundColor := 0, backgroundColor := 0,
    rendition := 0, isRealCharacter := false }

/-- Modelled from the spec (4.4): the conceptual sequence of per-line begin
offsets of the disk-backed scroll — line 0 begins at offset 0, and each
stored index entry marks where the line after the one it closes begins. -/
def specLineStarts (s : HistoryScrollFile) : List Nat :=
  0 :: s.index

/-- The flat concatenation of a sequence of rows, oldest first. -/
def cellsOfRows (rows : List (List Character)) : List Character :=
  rows.foldl (fun a r => a ++ r) []

/-- The index-file contents after appending a sequence of rows: the i-th
entry is the total cell count of rows 0..i. -/
def fileIndexOf (rows : List (List Character)) : List Nat :=
  (List.range rows.length).map (fun i => (cellsOfRows (rows.take (i + 1))).length)

/-- A fresh disk-backed scroll after appending the given rows, oldest
first, each with wrap flag `w`. -/
def buildFileScroll (rows : List (List Character)) (w : Bool) : HistoryScrollFile :=
  HistoryScrollFile.appendRows mkHistoryScrollFile rows w

/-- A fresh bounded in-memory scroll with bound `K` after appending the
given rows, oldest first, each with wrap flag `w`. -/
def buildCompactScroll (K : Nat) (rows : List (List Character)) (w : Bool) :
    CompactHistoryScroll :=
  (mkCompactHistoryScroll K).appendRows rows w

/-- A sample row used to instantiate theorems at concrete inputs. -/
def sampleRowA : List Character :=
  [{ character := 65, foregroundColor := 1, backgroundColor := 2,
     rendition := 0, isRealCharacter := true }]

/-- A second sample row used to instantiate theorems at concrete inputs. -/
def sampleRowB : List Character :=
  [{ character := 66, foregroundColor := 3, backgroundColor := 4,
     rendition := 0, isRealCharacter := false },
   { character := 67, foregroundColor := 3, backgroundColor := 5,
     rendition := 2, isRealCharacter := true }]

theorem cellsOfRows_accum (l : List (List Character)) (a : List Character) :
    l.foldl (fun a r => a ++ r) a = a ++ cellsOfRows l := by
  induction l generalizing a with
  | nil => simp [cellsOfRows]
  | cons r rs ih =>
    simp only [cellsOfRows, List.foldl_cons, List.nil_append]
    rw [ih (a ++ r), ih r, List.append_assoc]

theorem cellsOfRows_append (xs ys : List (List Character)) :
    cellsOfRows (xs ++ ys) = cellsOfRows xs ++ cellsOfRows ys := by
  simp only [cellsOfRows, List.foldl_append]
  rw [cellsOfRows_accum ys (List.foldl (fun a r => a ++ r) [] xs)]
  rfl

theorem cellsOfRows_cons (r : List Character) (rs : List (List Character)) :
    cellsOfRows (r :: rs) = r ++ cellsOfRows rs := by
  simpa using cellsOfRows_append [r] rs

theorem mkFormat_equalsFormatChar_self (c : Character) (p : Nat) :
    (mkFormat c p).equalsFormatChar c = true := by
  simp [mkFormat, blankFormat, CharacterFormat.setFormat, CharacterFormat.equalsFormatChar]

theorem equalsFormatChar_congr (f : CharacterFormat) (c d : Character)
    (h : f.equalsFormatChar c = true) : f.equalsFormatChar d = sameFormat c d := by
  simp only [CharacterFormat.equalsFormatChar, Bool.and_eq_true, beq_iff_eq] at h
  obtain ⟨⟨h1, h2⟩, h3⟩ := h
  simp only [CharacterFormat.equalsFormatChar, sameFormat, h1, h2, h3]

theorem mkFormat_equalsFormatChar (c d : Character) (p : Nat) :
    (mkFormat c p).equalsFormatChar d = sameFormat c d :=
  equalsFormatChar_congr _ _ _ (mkFormat_equalsFormatChar_self c p)

theorem formatRunsAux_startPos_ge (cs : List Character) (f : CharacterFormat) (q : Nat) :
    ∀ r ∈ formatRunsAux f q cs, q ≤ r.startPos := by
  induction cs generalizing f q with
  | nil => intro r hr; simp [formatRunsAux] at hr
  | cons c cs ih =>
    intro r hr
    by_cases h : f.equalsFormatChar c = true
    · rw [formatRunsAux, if_pos h] at hr
      exact Nat.le_of_succ_le (ih f (q + 1) r hr)
    · rw [formatRunsAux, if_neg h] at hr
      rcases List.mem_cons.mp hr with hr | hr
      · subst hr; simp [mkFormat]
      · exact Nat.le_of_succ_le (ih _ (q + 1) r hr)

theorem findRunAux_of_lt (g : CharacterFormat) (rs : List CharacterFormat) (i : Nat)
    (h : ∀ r ∈ rs, i < r.startPos) : findRunAux g rs i = g := by
  cases rs with
  | nil => rfl
  | cons r rs =>
    rw [findRunAux, if_neg]
    exact Nat.not_le.mpr (h r (by simp))

theorem findRun_covers (cs : List Character) (f : CharacterFormat) (pos i : Nat)
    (hi : i < cs.length) :
    (findRunAux f (formatRunsAux f pos cs) (pos + i)).equalsFormatChar
      (cs.getD i dummyCharacter) = true := by
  induction cs generalizing f pos i with
  | nil => simp at hi
  | cons c cs ih =>
    by_cases h : f.equalsFormatChar c = true
    · rw [formatRunsAux, if_pos h]
      cases i with
      | zero =>
        rw [findRunAux_of_lt f _ (pos + 0) (fun r hr => by
          have := formatRunsAux_startPos_ge cs f (pos + 1) r hr; omega)]
        simpa using h
      | succ j =>
        have e : pos + (j + 1) = (pos + 1) + j := by omega
        rw [e]
        simpa using ih f (pos + 1) j (by simpa using hi)
    · rw [formatRunsAux, if_neg h]
      cases i with
      | zero =>
        rw [findRunAux, if_pos (by simp [mkFormat])]
        rw [findRunAux_of_lt _ _ (pos + 0) (fun r hr => by
          have := formatRunsAux_startPos_ge cs (mkFormat c pos) (pos + 1) r hr; omega)]
        simpa using mkFormat_equalsFormatChar_self c pos
      | succ j =>
        rw [findRunAux, if_pos (by simp [mkFormat])]
        have e : pos + (j + 1) = (pos + 1) + j := by omega
        rw [e]
        simpa using ih (mkFormat c pos) (pos + 1) j (by simpa using hi)

theorem getD_map_character (l : List Character) (i : Nat) (hi : i < l.length) :
    (l.map (fun c => c.character)).getD i 0 = (l.getD i dummyCharacter).character := by
  induction l generalizing i with
  | nil => simp at hi
  | cons c cs ih =>
    cases i with
    | zero => rfl
    | succ j => simpa using ih j (by simpa using hi)

theorem getCharacter_reconstructs (line : List Character) (i : Nat) (hi : i < line.length) :
    ((mkCompactHistoryLine line).getCharacter i).character
        = (line.getD i dummyCharacter).character ∧
    ((mkCompactHistoryLine line).getCharacter i).foregroundColor
        = (line.getD i dummyCharacter).foregroundColor ∧
    ((mkCompactHistoryLine line).getCharacter i).backgroundColor
        = (line.getD i dummyCharacter).backgroundColor ∧
    clearExtendedChar ((mkCompactHistoryLine line).getCharacter i).rendition
        = clearExtendedChar (line.getD i dummyCharacter).rendition := by
  cases line with
  | nil => simp at hi
  | cons c cs =>
    have hrun : (findRunAux (mkFormat c 0) (formatRunsAux (mkFormat c 0) 1 cs) i).equalsFormatChar
        ((c :: cs).getD i dummyCharacter) = true := by
      cases i with
      | zero =>
        rw [findRunAux_of_lt _ _ 0 (fun r hr => by
          have := formatRunsAux_startPos_ge cs (mkFormat c 0) 1 r hr; omega)]
        simpa using mkFormat_equalsFormatChar_self c 0
      | succ j =>
        rw [List.getD_cons_succ]
        have e : j + 1 = 1 + j := Nat.add_comm j 1
        rw [e]
        exact findRun_covers cs (mkFormat c 0) 1 j (by simpa using hi)
    simp only [CharacterFormat.equalsFormatChar, Bool.and_eq_true, beq_iff_eq] at hrun
    obtain ⟨⟨h1, h2⟩, h3⟩ := hrun
    simp only [mkCompactHistoryLine, formatRuns, CompactHistoryLine.getCharacter]
    exact ⟨getD_map_character (c :: cs) i hi, h2.symm, h3.symm, h1.symm⟩

theorem runStart_zero (cs : List Character) (f : CharacterFormat) (pos : Nat)
    (h0 : 0 < cs.length) :
    (formatRunsAux f pos cs).any (fun r => r.startPos == pos)
      = !(f.equalsFormatChar (cs.getD 0 dummyCharacter)) := by
  cases cs with
  | nil => simp at h0
  | cons c cs =>
    by_cases h : f.equalsFormatChar c = true
    · rw [formatRunsAux, if_pos h]
      have hall : ∀ r ∈ formatRunsAux f (pos + 1) cs, ¬(r.startPos == pos) = true := by
        intro r hr hb
        have hge := formatRunsAux_startPos_ge cs f (pos + 1) r hr
        have heq : r.startPos = pos := by simpa using hb
        omega
      simp only [List.getD_cons_zero, h, Bool.not_true]
      exact List.any_eq_false.mpr hall
    · rw [formatRunsAux, if_neg h]
      have h' : f.equalsFormatChar c = false := by simpa using h
      simp [List.any_cons, mkFormat, h', List.getD_cons_zero]

theorem runStart_succ (cs : List Character) (f : CharacterFormat) (pos j : Nat)
    (hj : j + 1 < cs.length) :
    (formatRunsAux f pos cs).any (fun r => r.startPos == pos + (j + 1))
      = !(sameFormat (cs.getD j dummyCharacter) (cs.getD (j + 1) dummyCharacter)) := by
  induction cs generalizing f pos j with
  | nil => simp at hj
  | cons c cs ih =>
    by_cases h : f.equalsFormatChar c = true
    · rw [formatRunsAux, if_pos h]
      cases j with
      | zero =>
        have h0 : 0 < cs.length := by simpa using hj
        have e : pos + (0 + 1) = pos + 1 := rfl
        rw [e, runStart_zero cs f (pos + 1) h0, List.getD_cons_zero, List.getD_cons_succ,
          equalsFormatChar_congr f c (cs.getD 0 dummyCharacter) h]
      | succ k =>
        have e : pos + (k + 1 + 1) = (pos + 1) + (k + 1) := by omega
        rw [e, ih f (pos + 1) k (by simpa using hj), List.getD_cons_succ, List.getD_cons_succ]
    · rw [formatRunsAux, if_neg h]
      have hne : ((mkFormat c pos).startPos == pos + (j + 1)) = false := by
        simp only [mkFormat, beq_eq_false_iff_ne]
        omega
      rw [List.any_cons]
      simp only [hne, Bool.false_or]
      cases j with
      | zero =>
        have h0 : 0 < cs.length := by simpa using hj
        have e : pos + (0 + 1) = pos + 1 := rfl
        rw [e, runStart_zero cs (mkFormat c pos) (pos + 1) h0, List.getD_cons_zero,
          List.getD_cons_succ, mkFormat_equalsFormatChar c (cs.getD 0 dummyCharacter) pos]
      | succ k =>
        have e : pos + (k + 1 + 1) = (pos + 1) + (k + 1) := by omega
        rw [e, ih (mkFormat c pos) (pos + 1) k (by simpa using hj), List.getD_cons_succ,
          List.getD_cons_succ]

theorem getD_map' {α β : Type} (f : α → β) (l : List α) (i : Nat) (d : β) (d' : α)
    (hi : i < l.length) : (l.map f).getD i d = f (l.getD i d') := by
  induction l generalizing i with
  | nil => simp at hi
  | cons a l ih =>
    cases i with
    | zero => rfl
    | succ j => simpa using ih j (by simpa using hi)

theorem evictFront_append_one (l : List CompactHistoryLine) (a : CompactHistoryLine) (K : Nat) :
    evictFront (evictFront l K ++ [a]) K = evictFront (l ++ [a]) K := by
  simp only [evictFront, List.drop_append_eq_append_drop, List.drop_drop, List.length_append,
    List.length_drop, List.length_cons, List.length_nil]
  congr 2
  omega
  omega

theorem appendRows_compact_eq (rows : List (List Character)) (w : Bool) (K : Nat) :
    buildCompactScroll K rows w
      = { lines := evictFront (rows.map (fun r => (mkCompactHistoryLine r).setWrapped w)) K,
          pending := [], maxLineCount := K } := by
  induction rows using List.reverseRecOn with
  | nil => simp [buildCompactScroll, CompactHistoryScroll.appendRows, mkCompactHistoryScroll,
      evictFront]
  | append_singleton rs r ih =>
    rw [buildCompactScroll, CompactHistoryScroll.appendRows, List.foldl_append]
    rw [buildCompactScroll, CompactHistoryScroll.appendRows] at ih
    rw [ih]
    simp only [List.foldl_cons, List.foldl_nil, CompactHistoryScroll.appendRow,
      CompactHistoryScroll.addCellsVector, CompactHistoryScroll.addLine, List.nil_append]
    rw [evictFront_append_one]
    simp [List.map_append]

theorem fileIndexOf_append_one (rs : List (List Character)) (r : List Character) :
    fileIndexOf (rs ++ [r]) = fileIndexOf rs ++ [(cellsOfRows (rs ++ [r])).length] := by
  unfold fileIndexOf
  simp only [List.length_append, List.length_cons, List.length_nil, Nat.zero_add]
  rw [List.range_succ, List.map_append]
  congr 1
  · apply List.map_congr_left
    intro i hi
    have hlt : i < rs.length := List.mem_range.mp hi
    congr 2
    rw [List.take_append_eq_append_take, Nat.sub_eq_zero_of_le (by omega), List.take_zero,
      List.append_nil]
  · simp only [List.map_cons, List.map_nil]
    congr 2
    rw [List.take_of_length_le (by simp)]

theorem appendRows_file_eq (rows : List (List Character)) (w : Bool) :
    buildFileScroll rows w
      = { index := fileIndexOf rows, cells := cellsOfRows rows,
          lineflags := List.replicate rows.length w } := by
  induction rows using List.reverseRecOn with
  | nil => rfl
  | append_singleton rs r ih =>
    rw [buildFileScroll, HistoryScrollFile.appendRows, List.foldl_append]
    rw [buildFileScroll, HistoryScrollFile.appendRows] at ih
    rw [ih]
    simp only [List.foldl_cons, List.foldl_nil, HistoryScrollFile.appendRow,
      HistoryScrollFile.addCells, HistoryScrollFile.addLine, HistoryScrollFile.mk.injEq]
    refine ⟨?_, ?_, ?_⟩
    · rw [fileIndexOf_append_one, cellsOfRows_append]
      simp [cellsOfRows]
    · rw [cellsOfRows_append]
      simp [cellsOfRows]
    · rw [List.length_append, List.length_cons, List.length_nil]
      simp [List.replicate_succ']

theorem fileIndexOf_getD (rows : List (List Character)) (j : Nat) (hj : j < rows.length) :
    (fileIndexOf rows).getD j 0 = (cellsOfRows (rows.take (j + 1))).length := by
  unfold fileIndexOf
  rw [List.getD_eq_getElem?_getD, List.getElem?_map, List.getElem?_range hj]
  rfl

theorem cellsOfRows_take_succ (rows : List (List Character)) (i : Nat) (hi : i < rows.length) :
    cellsOfRows (rows.take (i + 1)) = cellsOfRows (rows.take i) ++ rows.getD i [] := by
  induction rows generalizing i with
  | nil => simp at hi
  | cons r rs ih =>
    cases i with
    | zero => simp [cellsOfRows_cons, cellsOfRows]
    | succ j =>
      rw [List.take_succ_cons, List.take_succ_cons, cellsOfRows_cons, cellsOfRows_cons,
        List.getD_cons_succ, ih j (by simpa using hi), List.append_assoc]

theorem file_startOfLine_core (rows : List (List Character)) (extra : List Character)
    (wflags : List Bool) (i : Nat) (hi : i ≤ rows.length) :
    HistoryScrollFile.startOfLine
        { index := fileIndexOf rows, cells := cellsOfRows rows ++ extra, lineflags := wflags } i
      = (cellsOfRows (rows.take i)).length := by
  simp only [HistoryScrollFile.startOfLine, HistoryScrollFile.getLines]
  have hlen : (fileIndexOf rows).length = rows.length := by
    simp [fileIndexOf]
  rcases Nat.eq_zero_or_pos i with rfl | hpos
  · simp [cellsOfRows]
  · rw [if_neg (by omega), if_pos (by rw [hlen]; exact hi),
      fileIndexOf_getD rows (i - 1) (by omega)]
    have e : i - 1 + 1 = i := by omega
    rw [e]

theorem file_startOfLine (rows : List (List Character)) (w : Bool) (pending : List Character)
    (i : Nat) (hi : i ≤ rows.length) :
    ((buildFileScroll rows w).addCells pending).startOfLine i
      = (cellsOfRows (rows.take i)).length := by
  rw [appendRows_file_eq]
  exact file_startOfLine_core rows pending _ i hi

theorem file_startOfLine_base (rows : List (List Character)) (w : Bool) (i : Nat)
    (hi : i ≤ rows.length) :
    (buildFileScroll rows w).startOfLine i = (cellsOfRows (rows.take i)).length := by
  rw [appendRows_file_eq]
  have := file_startOfLine_core rows [] (List.replicate rows.length w) i hi
  simpa using this

theorem file_getLineLen_closed (rows : List (List Character)) (w : Bool)
    (pending : List Character) (i : Nat) (hi : i < rows.length) :
    ((buildFileScroll rows w).addCells pending).getLineLen i = (rows.getD i []).length := by
  rw [HistoryScrollFile.getLineLen, file_startOfLine rows w pending (i + 1) (by omega),
    file_startOfLine rows w pending i (by omega), cellsOfRows_take_succ rows i hi]
  simp only [List.length_append]
  omega

theorem file_getLineLen_base (rows : List (List Character)) (w : Bool) (i : Nat)
    (hi : i < rows.length) :
    (buildFileScroll rows w).getLineLen i = (rows.getD i []).length := by
  rw [HistoryScrollFile.getLineLen, file_startOfLine_base rows w (i + 1) (by omega),
    file_startOfLine_base rows w i (by omega), cellsOfRows_take_succ rows i hi]
  simp only [List.length_append]
  omega

theorem file_getLineLen_open (rows : List (List Character)) (w : Bool)
    (pending : List Character) :
    ((buildFileScroll rows w).addCells pending).getLineLen rows.length = pending.length := by
  rw [HistoryScrollFile.getLineLen]
  have h1 : ((buildFileScroll rows w).addCells pending).startOfLine (rows.length + 1)
      = (cellsOfRows rows).length + pending.length := by
    rw [appendRows_file_eq]
    simp only [HistoryScrollFile.addCells, HistoryScrollFile.startOfLine,
      HistoryScrollFile.getLines]
    rw [if_neg (by omega),
      if_neg (by simp only [fileIndexOf, List.length_map, List.length_range]; omega)]
    simp
  rw [h1, file_startOfLine rows w pending rows.length (le_refl _), List.take_length]
  omega

theorem file_getCells_row (rows : List (List Character)) (w : Bool) (i : Nat)
    (hi : i < rows.length) :
    (buildFileScroll rows w).getCells i 0 ((rows.getD i []).length) = rows.getD i [] := by
  rw [HistoryScrollFile.getCells, file_startOfLine_base rows w i (by omega), Nat.add_zero,
    List.getD_eq_getElem rows [] hi]
  have hsplit : (buildFileScroll rows w).cells
      = cellsOfRows (rows.take i) ++ (rows[i] ++ cellsOfRows (rows.drop (i + 1))) := by
    rw [appendRows_file_eq]
    show cellsOfRows rows = _
    conv_lhs => rw [← List.take_append_drop i rows]
    rw [cellsOfRows_append, List.drop_eq_getElem_cons hi, cellsOfRows_cons]
  rw [hsplit, List.drop_left, List.take_left]

theorem getD_snoc {α : Type} (xs : List α) (a d : α) :
    (xs ++ [a]).getD xs.length d = a := by
  rw [List.getD_eq_getElem?_getD, List.getElem?_append_right (le_refl _), Nat.sub_self]
  rfl

theorem getD_range (n j : Nat) (d : Nat) (hj : j < n) :
    (List.range n).getD j d = j := by
  rw [List.getD_eq_getElem?_getD, List.getElem?_range hj]
  rfl

theorem compact_lines_of_le (rows : List (List Character)) (w : Bool) (K : Nat)
    (h : rows.length ≤ K) :
    (buildCompactScroll K rows w).lines
      = rows.map (fun r => (mkCompactHistoryLine r).setWrapped w) := by
  rw [appendRows_compact_eq]
  show evictFront _ K = _
  rw [evictFront, List.length_map, Nat.sub_eq_zero_of_le h, List.drop_zero]

theorem compact_getLines (rows : List (List Character)) (w : Bool) (K : Nat) :
    (buildCompactScroll K rows w).getLines = min rows.length K := by
  rw [appendRows_compact_eq]
  show (evictFront _ K).length = _
  rw [evictFront, List.length_drop, List.length_map]
  omega

theorem copyScroll_none (src : HistoryScroll) (x : HistoryScrollNone) :
    copyScroll src (HistoryScroll.ofNone x) = HistoryScroll.ofNone x := by
  rw [copyScroll]
  generalize List.range src.getLines = l
  induction l with
  | nil => rfl
  | cons a l ih =>
    rw [List.foldl_cons]
    exact ih

/-- C2: for `CompactHistoryScroll` with `maxLineCount = K`, after appending
`n > K` rows `getLines()` returns `K` and the stored rows are exactly the
stored forms of the last `K` appended rows, in their original append order
(FIFO eviction, oldest dropped first). -/
theorem claim_C2_bounded_fifo (rows : List (List Character)) (w : Bool) (K : Nat)
    (h : K < rows.length) :
    (buildCompactScroll K rows w).getLines = K ∧
    (buildCompactScroll K rows w).lines
      = (rows.drop (rows.length - K)).map (fun r => (mkCompactHistoryLine r).setWrapped w) := by
  constructor
  · rw [compact_getLines]
    omega
  · rw [appendRows_compact_eq]
    show evictFront _ K = _
    rw [evictFront, List.length_map, List.map_drop]

/-- C2 witness: three one-cell rows into a scroll bounded at 2 keep the
last two rows. -/
theorem claim_C2_witness :
    2 < [sampleRowA, sampleRowA, sampleRowB].length ∧
    ((buildCompactScroll 2 [sampleRowA, sampleRowA, sampleRowB] false).getLines = 2 ∧
     (buildCompactScroll 2 [sampleRowA, sampleRowA, sampleRowB] false).lines
       = ([sampleRowA, sampleRowA, sampleRowB].drop
           ([sampleRowA, sampleRowA, sampleRowB].length - 2)).map
           (fun r => (mkCompactHistoryLine r).setWrapped false)) :=
  ⟨by decide, claim_C2_bounded_fifo [sampleRowA, sampleRowA, sampleRowB] false 2 (by decide)⟩

/-- C7: `setMaxNbLines(n)` updates the retention bound to `n`; if the
current line count exceeds `n` it evicts from the front until at most `n`
rows remain; rows within the bound are left unchanged and in order (the
surviving rows are a suffix of the old ones). -/
theorem claim_C7_setMaxNbLines (s : CompactHistoryScroll) (n : Nat) :
    (s.setMaxNbLines n).maxLineCount = n ∧
    (s.setMaxNbLines n).getLines = min s.getLines n ∧
    List.IsSuffix (s.setMaxNbLines n).lines s.lines ∧
    (s.getLines ≤ n → (s.setMaxNbLines n).lines = s.lines) := by
  refine ⟨rfl, ?_, ?_, ?_⟩
  · show (evictFront s.lines n).length = _
    rw [evictFront, List.length_drop]
    show _ = min s.lines.length n
    omega
  · show List.IsSuffix (evictFront s.lines n) s.lines
    rw [evictFront]
    exact List.drop_suffix _ _
  · intro h
    show evictFront s.lines n = s.lines
    have h' : s.lines.length ≤ n := h
    rw [evictFront, Nat.sub_eq_zero_of_le h', List.drop_zero]

/-- C7 witness: lowering the bound of a three-row scroll to 2 keeps the
bound, the count and a suffix of the rows. -/
theorem claim_C7_witness :
    ((buildCompactScroll 5 [sampleRowA, sampleRowB, sampleRowA] true).setMaxNbLines 2).maxLineCount
        = 2 ∧
    ((buildCompactScroll 5 [sampleRowA, sampleRowB, sampleRowA] true).setMaxNbLines 2).getLines
        = min (buildCompactScroll 5 [sampleRowA, sampleRowB, sampleRowA] true).getLines 2 ∧
    List.IsSuffix
      ((buildCompactScroll 5 [sampleRowA, sampleRowB, sampleRowA] true).setMaxNbLines 2).lines
      (buildCompactScroll 5 [sampleRowA, sampleRowB, sampleRowA] true).lines ∧
    ((buildCompactScroll 5 [sampleRowA, sampleRowB, sampleRowA] true).getLines ≤ 2 →
      ((buildCompactScroll 5 [sampleRowA, sampleRowB, sampleRowA] true).setMaxNbLines 2).lines
        = (buildCompactScroll 5 [sampleRowA, sampleRowB, sampleRowA] true).lines) :=
  claim_C7_setMaxNbLines (buildCompactScroll 5 [sampleRowA, sampleRowB, sampleRowA] true) 2

/-- C8: the null backend reports `hasScroll() = false`, `getLines()` is
always 0, and `addCells`/`addLine` — and hence any sequence of such calls —
leave the scroll's state entirely unchanged. -/
theorem claim_C8_none_noop (s : HistoryScrollNone) (ops : List NoneOp)
    (a : List Character) (w : Bool) :
    s.hasScroll = false ∧ s.getLines = 0 ∧ s.addCells a = s ∧ s.addLine w = s ∧
    ops.foldl runNoneOp s = s ∧ (ops.foldl runNoneOp s).getLines = 0 := by
  exact ⟨rfl, rfl, rfl, rfl, rfl, rfl⟩

/-- C10: a `CompactHistoryScroll` constructed with the header's default
argument has retention bound 1000: appending `n` rows leaves
`min n 1000` stored lines. -/
theorem claim_C10_default_bound (rows : List (List Character)) (w : Bool) :
    ((mkCompactHistoryScroll).appendRows rows w).getLines = min rows.length 1000 :=
  compact_getLines rows w 1000

/-- C4: wrap-flag round-trip — on both history-storing backends,
`addLine(w)` followed by reading `isWrappedLine` on the just-completed
line's index returns `w` (in particular true for `addLine(true)` and
false for `addLine(false)`). -/
theorem claim_C4_wrap_roundtrip (cs : CompactHistoryScroll) (fs : HistoryScrollFile) (w : Bool)
    (h1 : 0 < cs.maxLineCount) (h2 : fs.lineflags.length = fs.index.length) :
    (cs.addLine w).isWrappedLine ((cs.addLine w).getLines - 1) = w ∧
    (fs.addLine w).isWrappedLine ((fs.addLine w).getLines - 1) = w := by
  constructor
  · simp only [CompactHistoryScroll.addLine, CompactHistoryScroll.isWrappedLine,
      CompactHistoryScroll.getLines, evictFront, List.length_append, List.length_cons,
      List.length_nil, Nat.zero_add]
    rw [List.drop_append_eq_append_drop]
    have e0 : cs.lines.length + 1 - cs.maxLineCount - cs.lines.length = 0 := by omega
    rw [e0, List.drop_zero]
    have e1 : (cs.lines.drop (cs.lines.length + 1 - cs.maxLineCount)
        ++ [(mkCompactHistoryLine cs.pending).setWrapped w]).length - 1
        = (cs.lines.drop (cs.lines.length + 1 - cs.maxLineCount)).length := by
      simp
    rw [e1, getD_snoc]
    rfl
  · simp only [HistoryScrollFile.addLine, HistoryScrollFile.isWrappedLine,
      HistoryScrollFile.getLines, List.length_append, List.length_cons, List.length_nil,
      Nat.zero_add]
    have e : fs.index.length + 1 - 1 = fs.lineflags.length := by omega
    rw [e, getD_snoc]

/-- C4 witness: the round-trip at a concrete one-line state of each
backend. -/
theorem claim_C4_witness :
    0 < (buildCompactScroll 5 [sampleRowA] false).maxLineCount ∧
    (buildFileScroll [sampleRowA] false).lineflags.length
      = (buildFileScroll [sampleRowA] false).index.length ∧
    (((buildCompactScroll 5 [sampleRowA] false).addLine true).isWrappedLine
        (((buildCompactScroll 5 [sampleRowA] false).addLine true).getLines - 1) = true ∧
     ((buildFileScroll [sampleRowA] false).addLine true).isWrappedLine
        (((buildFileScroll [sampleRowA] false).addLine true).getLines - 1) = true) :=
  ⟨by decide, by decide,
   claim_C4_wrap_roundtrip (buildCompactScroll 5 [sampleRowA] false)
     (buildFileScroll [sampleRowA] false) true (by decide) (by decide)⟩

theorem startOfLine_spec (s : HistoryScrollFile) (k : Nat) (hk : k ≤ s.getLines) :
    s.startOfLine k = (specLineStarts s).getD k 0 := by
  rw [HistoryScrollFile.startOfLine, specLineStarts]
  cases k with
  | zero => simp
  | succ j =>
    rw [if_neg (by omega), if_pos hk, List.getD_cons_succ]
    simp

/-- C3: policy conversion — converting a bounded compact scroll that holds
30 rows under bound 50 to bound 100 returns the same backend object with
only the bound updated (all 30 rows unchanged, in order), while routing any
scroll through the Disabled policy and then to Bounded(100) yields a scroll
with 0 rows. -/
theorem claim_C3_policy_conversion (s : CompactHistoryScroll) (t : HistoryScroll)
    (_hb : s.maxLineCount = 50) (hn : s.getLines = 30) :
    (HistoryType.typeCompact 100).scroll (HistoryScroll.ofCompact s)
      = HistoryScroll.ofCompact { s with maxLineCount := 100 } ∧
    ((HistoryType.typeCompact 100).scroll ((HistoryType.typeNone).scroll t)).getLines = 0 := by
  constructor
  · show HistoryScroll.ofCompact (s.setMaxNbLines 100) = _
    have h' : s.lines.length ≤ 100 := by
      have h30 : s.lines.length = 30 := hn
      omega
    have hev : evictFront s.lines 100 = s.lines := by
      rw [evictFront, Nat.sub_eq_zero_of_le h', List.drop_zero]
    rw [CompactHistoryScroll.setMaxNbLines, hev]
  · have hx : ∃ x, (HistoryType.typeNone).scroll t = HistoryScroll.ofNone x := by
      cases t with
      | ofNone n => exact ⟨n, rfl⟩
      | ofFile f => exact ⟨⟨⟩, copyScroll_none _ _⟩
      | ofCompact c => exact ⟨⟨⟩, copyScroll_none _ _⟩
    obtain ⟨x, hx⟩ := hx
    rw [hx]
    rfl

/-- C3 witness: a compact scroll with 30 one-cell rows under bound 50,
converted to bound 100, and a file scroll routed through Disabled. -/
theorem claim_C3_witness :
    (buildCompactScroll 50 (List.replicate 30 sampleRowA) false).maxLineCount = 50 ∧
    (buildCompactScroll 50 (List.replicate 30 sampleRowA) false).getLines = 30 ∧
    ((HistoryType.typeCompact 100).scroll
        (HistoryScroll.ofCompact (buildCompactScroll 50 (List.replicate 30 sampleRowA) false))
      = HistoryScroll.ofCompact
          { buildCompactScroll 50 (List.replicate 30 sampleRowA) false with
              maxLineCount := 100 } ∧
     ((HistoryType.typeCompact 100).scroll
        ((HistoryType.typeNone).scroll (HistoryScroll.ofFile mkHistoryScrollFile))).getLines
       = 0) :=
  ⟨by decide, by decide,
   claim_C3_policy_conversion (buildCompactScroll 50 (List.replicate 30 sampleRowA) false)
     (HistoryScroll.ofFile mkHistoryScrollFile) (by decide) (by decide)⟩

/-- C6: on the disk-backed scroll, `getLineLen(i)` for a closed line is
the difference of consecutive conceptual begin offsets (`index[i+1] -
index[i]`), the still-open last line's length is the cell-sequence length
minus its begin offset, and `addLine` appends the cell sequence's current
length to the index sequence.  On states built by appending whole rows,
the closed-line length is the appended row's cell count and the open-line
length is the pending cell count. -/
theorem claim_C6_file_lineLen (s : HistoryScrollFile) (w : Bool) (i : Nat)
    (rows : List (List Character)) (pending : List Character) (j : Nat)
    (hi : i < s.getLines) (hj : j < rows.length) :
    (s.getLineLen i
        = (specLineStarts s).getD (i + 1) 0 - (specLineStarts s).getD i 0) ∧
    (s.getLineLen s.getLines
        = s.cells.length - (specLineStarts s).getD s.getLines 0) ∧
    ((s.addLine w).index = s.index ++ [s.cells.length]) ∧
    (((buildFileScroll rows w).addCells pending).getLineLen j = (rows.getD j []).length) ∧
    (((buildFileScroll rows w).addCells pending).getLineLen rows.length = pending.length) := by
  refine ⟨?_, ?_, rfl, file_getLineLen_closed rows w pending j hj,
    file_getLineLen_open rows w pending⟩
  · rw [HistoryScrollFile.getLineLen, startOfLine_spec s (i + 1) (by omega),
      startOfLine_spec s i (by omega)]
  · have h1 : s.startOfLine (s.getLines + 1) = s.cells.length := by
      rw [HistoryScrollFile.startOfLine, if_neg (by omega), if_neg (by omega)]
    rw [HistoryScrollFile.getLineLen, h1, startOfLine_spec s s.getLines (le_refl _)]

/-- C6 witness: a file scroll with one closed line, and a built state with
two closed rows plus three pending cells. -/
theorem claim_C6_witness :
    0 < (buildFileScroll [sampleRowA] true).getLines ∧
    1 < [sampleRowA, sampleRowB].length ∧
    (((buildFileScroll [sampleRowA] true).getLineLen 0
        = (specLineStarts (buildFileScroll [sampleRowA] true)).getD 1 0
          - (specLineStarts (buildFileScroll [sampleRowA] true)).getD 0 0) ∧
     ((buildFileScroll [sampleRowA] true).getLineLen
          (buildFileScroll [sampleRowA] true).getLines
        = (buildFileScroll [sampleRowA] true).cells.length
          - (specLineStarts (buildFileScroll [sampleRowA] true)).getD
              (buildFileScroll [sampleRowA] true).getLines 0) ∧
     (((buildFileScroll [sampleRowA] true).addLine true).index
        = (buildFileScroll [sampleRowA] true).index
          ++ [(buildFileScroll [sampleRowA] true).cells.length]) ∧
     (((buildFileScroll [sampleRowA, sampleRowB] true).addCells sampleRowB).getLineLen 1
        = ([sampleRowA, sampleRowB].getD 1 []).length) ∧
     (((buildFileScroll [sampleRowA, sampleRowB] true).addCells sampleRowB).getLineLen
          [sampleRowA, sampleRowB].length
        = sampleRowB.length)) :=
  ⟨by decide, by decide,
   claim_C6_file_lineLen (buildFileScroll [sampleRowA] true) true 0
     [sampleRowA, sampleRowB] sampleRowB 1 (by decide) (by decide)⟩

/-- C5: when a compact row is built, a new format run starts exactly at
those columns where foreground color, background color, or rendition flags
(with the extended-char bit masked out) change from the previous cell; two
consecutive cells identical in these components fall into the same single
run (no run starts at the second one). -/
theorem claim_C5_run_boundaries (line : List Character) (i : Nat) (hi : i + 1 < line.length) :
    (formatRuns line).any (fun r => r.startPos == i + 1)
      = !(sameFormat (line.getD i dummyCharacter) (line.getD (i + 1) dummyCharacter)) := by
  cases line with
  | nil => simp at hi
  | cons c cs =>
    simp only [formatRuns, List.any_cons]
    have hp : (mkFormat c 0).startPos = 0 := rfl
    have h0 : ((mkFormat c 0).startPos == i + 1) = false := by
      rw [hp, beq_eq_false_iff_ne]
      omega
    rw [h0, Bool.false_or]
    cases i with
    | zero =>
      have h0' : 0 < cs.length := by
        simp only [List.length_cons] at hi
        omega
      rw [List.getD_cons_zero, List.getD_cons_succ]
      simp only [Nat.zero_add]
      rw [runStart_zero cs (mkFormat c 0) 1 h0', mkFormat_equalsFormatChar]
    | succ k =>
      rw [List.getD_cons_succ, List.getD_cons_succ]
      have e : (k + 1) + 1 = 1 + (k + 1) := by omega
      rw [e]
      exact runStart_succ cs (mkFormat c 0) 1 k (by simpa using hi)

/-- C5 witness: in a three-cell row whose middle cell changes color, a run
starts at column 1 and none starts at column 2. -/
theorem claim_C5_witness :
    0 + 1 < sampleRowB.length ∧
    ((formatRuns sampleRowB).any (fun r => r.startPos == 0 + 1)
      = !(sameFormat (sampleRowB.getD 0 dummyCharacter)
          (sampleRowB.getD (0 + 1) dummyCharacter))) :=
  ⟨by decide, claim_C5_run_boundaries sampleRowB 0 (by decide)⟩

/-- C9: run comparison ignores the is-real-character flag —
`equalsFormat` gives the same verdict whatever that flag is, two
consecutive cells differing only in it share one format run, and
`getCharacter` reconstructs every cell of the run with the run's single
stored is-real-character value, the one captured by `setFormat` from the
cell that started the run. -/
theorem claim_C9_isReal_ignored (f : CharacterFormat) (c : Character) (b w : Bool) :
    f.equalsFormatChar { c with isRealCharacter := b } = f.equalsFormatChar c ∧
    formatRuns [c, { c with isRealCharacter := b }] = [mkFormat c 0] ∧
    (((mkCompactHistoryLine [c, { c with isRealCharacter := b }]).setWrapped
        w).getCharacter 0).isRealCharacter = c.isRealCharacter ∧
    (((mkCompactHistoryLine [c, { c with isRealCharacter := b }]).setWrapped
        w).getCharacter 1).isRealCharacter = c.isRealCharacter := by
  have hjoin : (mkFormat c 0).equalsFormatChar { c with isRealCharacter := b } = true := by
    simp [mkFormat, blankFormat, CharacterFormat.setFormat, CharacterFormat.equalsFormatChar]
  have hruns : formatRuns [c, { c with isRealCharacter := b }] = [mkFormat c 0] := by
    simp only [formatRuns, formatRunsAux, hjoin, if_true]
  refine ⟨rfl, hruns, ?_, ?_⟩
  · simp [mkCompactHistoryLine, CompactHistoryLine.setWrapped, CompactHistoryLine.getCharacter,
      hruns, findRunAux, mkFormat, blankFormat, CharacterFormat.setFormat]
  · simp [mkCompactHistoryLine, CompactHistoryLine.setWrapped, CompactHistoryLine.getCharacter,
      hruns, findRunAux, mkFormat, blankFormat, CharacterFormat.setFormat]

/-- C1 (amended): after appending rows `L0..Ln-1` with no retention bound
in effect, both history-storing backends report `getLines() = n` and
`getCells(i, 0, getLineLen(i))` reproduces row `Li` cell-for-cell in cell
count, character code, foreground color and background color; the
disk-backed backend also reproduces the rendition flags exactly, while the
compact backend reproduces them up to the extended-char bit (which
`equalsFormat` masks out of run comparisons, so a cell inherits that bit
from the cell that started its format run). -/
theorem claim_C1_roundtrip (rows : List (List Character)) (w : Bool) (i j : Nat)
    (hn : rows.length ≤ 1000) (hi : i < rows.length) (hj : j < (rows.getD i []).length) :
    (buildFileScroll rows w).getLines = rows.length ∧
    (buildFileScroll rows w).getLineLen i = (rows.getD i []).length ∧
    (buildFileScroll rows w).getCells i 0 ((buildFileScroll rows w).getLineLen i)
      = rows.getD i [] ∧
    (buildCompactScroll 1000 rows w).getLines = rows.length ∧
    (buildCompactScroll 1000 rows w).getLineLen i = (rows.getD i []).length ∧
    ((buildCompactScroll 1000 rows w).getCells i 0
        ((buildCompactScroll 1000 rows w).getLineLen i)).length
      = (rows.getD i []).length ∧
    (((buildCompactScroll 1000 rows w).getCells i 0
        ((buildCompactScroll 1000 rows w).getLineLen i)).getD j dummyCharacter).character
      = ((rows.getD i []).getD j dummyCharacter).character ∧
    (((buildCompactScroll 1000 rows w).getCells i 0
        ((buildCompactScroll 1000 rows w).getLineLen i)).getD j
          dummyCharacter).foregroundColor
      = ((rows.getD i []).getD j dummyCharacter).foregroundColor ∧
    (((buildCompactScroll 1000 rows w).getCells i 0
        ((buildCompactScroll 1000 rows w).getLineLen i)).getD j
          dummyCharacter).backgroundColor
      = ((rows.getD i []).getD j dummyCharacter).backgroundColor ∧
    clearExtendedChar (((buildCompactScroll 1000 rows w).getCells i 0
        ((buildCompactScroll 1000 rows w).getLineLen i)).getD j dummyCharacter).rendition
      = clearExtendedChar ((rows.getD i []).getD j dummyCharacter).rendition := by
  have hfl : (buildFileScroll rows w).getLines = rows.length := by
    rw [appendRows_file_eq]
    show (fileIndexOf rows).length = _
    simp [fileIndexOf]
  have hfll : (buildFileScroll rows w).getLineLen i = (rows.getD i []).length :=
    file_getLineLen_base rows w i hi
  have hfc : (buildFileScroll rows w).getCells i 0 ((buildFileScroll rows w).getLineLen i)
      = rows.getD i [] := by
    rw [hfll]
    exact file_getCells_row rows w i hi
  have hcl : (buildCompactScroll 1000 rows w).getLines = rows.length := by
    rw [compact_getLines]
    omega
  have hline_i : (buildCompactScroll 1000 rows w).lines.getD i emptyCompactLine
      = (mkCompactHistoryLine (rows.getD i [])).setWrapped w := by
    rw [compact_lines_of_le rows w 1000 hn]
    exact getD_map' _ rows i _ [] hi
  have hcll : (buildCompactScroll 1000 rows w).getLineLen i = (rows.getD i []).length := by
    rw [CompactHistoryScroll.getLineLen, hline_i]
    simp [mkCompactHistoryLine, CompactHistoryLine.setWrapped, CompactHistoryLine.getLength]
  have hcells : (buildCompactScroll 1000 rows w).getCells i 0
        ((buildCompactScroll 1000 rows w).getLineLen i)
      = (List.range ((rows.getD i []).length)).map
          (fun k => (mkCompactHistoryLine (rows.getD i [])).getCharacter k) := by
    rw [CompactHistoryScroll.getCells, hline_i, hcll, CompactHistoryLine.getCharacters]
    apply List.map_congr_left
    intro k _
    rw [Nat.zero_add]
    rfl
  have hgetD : ((buildCompactScroll 1000 rows w).getCells i 0
        ((buildCompactScroll 1000 rows w).getLineLen i)).getD j dummyCharacter
      = (mkCompactHistoryLine (rows.getD i [])).getCharacter j := by
    rw [hcells, getD_map' _ _ j dummyCharacter 0 (by simpa using hj),
      getD_range _ j 0 (by simpa using hj)]
  obtain ⟨h1, h2, h3, h4⟩ := getCharacter_reconstructs (rows.getD i []) j hj
  refine ⟨hfl, hfll, hfc, hcl, hcll, ?_, ?_, ?_, ?_, ?_⟩
  · rw [hcells]
    simp
  · rw [hgetD]
    exact h1
  · rw [hgetD]
    exact h2
  · rw [hgetD]
    exact h3
  · rw [hgetD]
    exact h4

/-- C1 witness: a single two-cell row with a background-color change,
appended to both backends and read back. -/
theorem claim_C1_witness :
    [sampleRowB].length ≤ 1000 ∧ 0 < [sampleRowB].length ∧
    1 < ([sampleRowB].getD 0 []).length ∧
    ((buildFileScroll [sampleRowB] true).getLines = [sampleRowB].length ∧
     (buildFileScroll [sampleRowB] true).getLineLen 0 = ([sampleRowB].getD 0 []).length ∧
     (buildFileScroll [sampleRowB] true).getCells 0 0
         ((buildFileScroll [sampleRowB] true).getLineLen 0)
       = [sampleRowB].getD 0 [] ∧
     (buildCompactScroll 1000 [sampleRowB] true).getLines = [sampleRowB].length ∧
     (buildCompactScroll 1000 [sampleRowB] true).getLineLen 0
       = ([sampleRowB].getD 0 []).length ∧
     ((buildCompactScroll 1000 [sampleRowB] true).getCells 0 0
         ((buildCompactScroll 1000 [sampleRowB] true).getLineLen 0)).length
       = ([sampleRowB].getD 0 []).length ∧
     (((buildCompactScroll 1000 [sampleRowB] true).getCells 0 0
         ((buildCompactScroll 1000 [sampleRowB] true).getLineLen 0)).getD 1
           dummyCharacter).character
       = (([sampleRowB].getD 0 []).getD 1 dummyCharacter).character ∧
     (((buildCompactScroll 1000 [sampleRowB] true).getCells 0 0
         ((buildCompactScroll 1000 [sampleRowB] true).getLineLen 0)).getD 1
           dummyCharacter).foregroundColor
       = (([sampleRowB].getD 0 []).getD 1 dummyCharacter).foregroundColor ∧
     (((buildCompactScroll 1000 [sampleRowB] true).getCells 0 0
         ((buildCompactScroll 1000 [sampleRowB] true).getLineLen 0)).getD 1
           dummyCharacter).backgroundColor
       = (([sampleRowB].getD 0 []).getD 1 dummyCharacter).backgroundColor ∧
     clearExtendedChar (((buildCompactScroll 1000 [sampleRowB] true).getCells 0 0
         ((buildCompactScroll 1000 [sampleRowB] true).getLineLen 0)).getD 1
           dummyCharacter).rendition
       = clearExtendedChar (([sampleRowB].getD 0 []).getD 1 dummyCharacter).rendition) :=
  ⟨by decide, by decide, by decide,
   claim_C1_roundtrip [sampleRowB] true 0 1 (by decide) (by decide) (by decide)⟩

/-- C1 counterexample: a row of two cells that differ only in the
extended-char rendition bit is not reproduced cell-for-cell by the compact
backend — the second cell comes back with its run's rendition (bit
cleared), so "same rendition flags" fails as stated. -/
theorem claim_C1_counterexample :
    ¬((buildCompactScroll 1000
          [[{ character := 65, foregroundColor := 1, backgroundColor := 1,
              rendition := 0, isRealCharacter := true },
            { character := 66, foregroundColor := 1, backgroundColor := 1,
              rendition := 64, isRealCharacter := true }]] false).getCells 0 0
        ((buildCompactScroll 1000
          [[{ character := 65, foregroundColor := 1, backgroundColor := 1,
              rendition := 0, isRealCharacter := true },
            { character := 66, foregroundColor := 1, backgroundColor := 1,
              rendition := 64, isRealCharacter := true }]] false).getLineLen 0)
      = [{ character := 65, foregroundColor := 1, backgroundColor := 1,
           rendition := 0, isRealCharacter := true },
         { character := 66, foregroundColor := 1, backgroundColor := 1,
           rendition := 64, isRealCharacter := true }]) := by
  decide

end Konsole
